import Mathlib

/-!
Verification development for the vacancy-statistics pipeline of `2.1.3.py`.

The Python source is embedded shallowly:
* Python `dict` (insertion-ordered) becomes an association list with
  `odFind` / `odUpd` preserving insertion order;
* machine floats become exact rationals `ℚ`; Python `int()` truncation
  toward zero becomes `pyTrunc`; Python `round(x, 4)` (round-half-to-even)
  becomes `round4`;
* fallible Python operations (`float()` on a bad string, `dict[...]` on a
  missing key, division by zero) become `Except String`, modelling the
  unhandled exceptions that abort the run;
* Python's stable `sorted(key=..., reverse=True)` becomes the stable
  descending insertion sort `sortValDesc`.
-/

/-- Error message used where Python would raise a KeyError. -/
def keyErrMsg : String := "KeyError"

/-- Error message used where Python would raise a ValueError from float() or int(). -/
def valErrMsg : String := "ValueError"

/-- Error message used where Python would raise an IndexError on rows[0]. -/
def idxErrMsg : String := "IndexError"

/-- Error message used where Python would raise a ZeroDivisionError. -/
def divErrMsg : String := "ZeroDivisionError"

/-- Lookup in an insertion-ordered association list (first matching key). -/
def odFind {κ α : Type} [DecidableEq κ] : List (κ × α) → κ → Option α
  | [], _ => none
  | (k1, v) :: t, k => if k = k1 then some v else odFind t k

/-- Python dict write `m[k] = f(m[k])` with default `d` when `k` is absent:
an existing key keeps its position, a new key is appended at the end. -/
def odUpd {κ α : Type} [DecidableEq κ] : List (κ × α) → κ → (α → α) → α → List (κ × α)
  | [], k, _, d => [(k, d)]
  | (k1, v) :: t, k, f, d => if k = k1 then (k1, f v) :: t else (k1, v) :: odUpd t k f d

/-- Sum of the values of an association list with natural-number values. -/
def sumVals {κ : Type} (m : List (κ × ℕ)) : ℕ := (m.map (fun p => p.2)).sum

/-- Builds the Python `dict(zip(titles, row))`: sequential insertion,
later duplicate keys overwrite, first occurrence fixes the position. -/
def buildDict (l : List (String × String)) : List (String × String) :=
  l.foldl (fun m p => odUpd m p.1 (fun _ => p.2) p.2) []

/-- Decides whether the character list `n` is a prefix of `h`. -/
def leadsWith : List Char → List Char → Bool
  | [], _ => true
  | _ :: _, [] => false
  | a :: as, b :: bs => a == b && leadsWith as bs

/-- Decides whether `n` occurs as a contiguous sublist of `h`. -/
def occursIn (n : List Char) : List Char → Bool
  | [] => leadsWith n []
  | c :: t => leadsWith n (c :: t) || occursIn n t

/-- Python string containment `needle in hay`. -/
def hasSubstr (needle hay : String) : Bool := occursIn needle.toList hay.toList

/-- Converts a list of decimal digit characters to a number; `none` on a
non-digit and on the empty list. -/
def digitsVal (l : List Char) : Option ℕ :=
  if !l.isEmpty && l.all Char.isDigit then
    some (l.foldl (fun a c => a * 10 + (c.toNat - 48)) 0)
  else none

/-- Embeds Python `int()` on a string: an optional sign followed by digits. -/
def pyIntOfStr (s : String) : Option ℤ :=
  match s.toList with
  | '-' :: t => (digitsVal t).map (fun n => -(n : ℤ))
  | '+' :: t => (digitsVal t).map (fun n => (n : ℤ))
  | t => (digitsVal t).map (fun n => (n : ℤ))

/-- Value of an unsigned decimal literal `digits` or `digits.digits`. -/
def decimalVal (l : List Char) : Option ℚ :=
  match l.splitOn '.' with
  | [w] => (digitsVal w).map (fun n => (n : ℚ))
  | [w, f] =>
    match digitsVal w, digitsVal f with
    | some wn, some fn => some ((wn : ℚ) + (fn : ℚ) / ((10 : ℚ) ^ f.length))
    | some wn, none => if f = [] then some ((wn : ℚ)) else none
    | none, some fn => if w = [] then some ((fn : ℚ) / ((10 : ℚ) ^ f.length)) else none
    | none, none => none
  | _ => none

/-- Embeds Python `float()` on a string, restricted to plain decimal
literals: an optional sign, then digits with an optional decimal point. -/
def pyFloatOfStr (s : String) : Option ℚ :=
  match s.toList with
  | '-' :: t => (decimalVal t).map (fun q => -q)
  | '+' :: t => decimalVal t
  | t => decimalVal t

/-- Python `int()` truncation toward zero of a rational. -/
def pyTrunc (q : ℚ) : ℤ := if 0 ≤ q then ⌊q⌋ else -⌊-q⌋

/-- Round-half-to-even of a rational to an integer, as Python `round`. -/
def roundHE (q : ℚ) : ℤ :=
  if q - (⌊q⌋ : ℚ) < 1 / 2 then ⌊q⌋
  else if 1 / 2 < q - (⌊q⌋ : ℚ) then ⌊q⌋ + 1
  else if 2 ∣ ⌊q⌋ then ⌊q⌋ else ⌊q⌋ + 1

/-- Python `round(q, 4)`. -/
def round4 (q : ℚ) : ℚ := (roundHE (q * 10000) : ℚ) / 10000

/-- `get_salary_avg` of the source, on one bucket: 0 for an empty list,
otherwise the truncated integer mean. -/
def listAvg (l : List ℚ) : ℤ :=
  if l.length = 0 then 0 else pyTrunc (l.sum / (l.length : ℚ))

/-- `get_salary_avg` of the source: collapses every bucket of the map to
its truncated mean, preserving insertion order. -/
def get_salary_avg {κ : Type} (m : List (κ × List ℚ)) : List (κ × ℤ) :=
  m.map (fun p => (p.1, listAvg p.2))

/-- The fixed `Vacancy.currency_to_rub` table of the source. -/
def currency_to_rub : List (String × ℚ) :=
  [("AZN", 3568 / 100), ("BYR", 2391 / 100), ("EUR", 5990 / 100),
   ("GEL", 2174 / 100), ("KGS", 76 / 100), ("KZT", 13 / 100),
   ("RUR", 1), ("UAH", 164 / 100), ("USD", 6066 / 100), ("UZS", 55 / 10000)]

/-- The `Vacancy` record after `Vacancy.__init__` has run: salary bounds
already parsed as numbers. -/
structure Vacancy where
  name : String
  salary_from : ℚ
  salary_to : ℚ
  salary_currency : String
  area_name : String
  published_at : String
deriving DecidableEq, Repr

/-- Dict lookup lifted to `Except`, as Python `dct[k]` raising KeyError. -/
def keyGet (d : List (String × String)) (k : String) : Except String String :=
  match odFind d k with
  | none => .error keyErrMsg
  | some v => .ok v

/-- Python `float(s)` raising ValueError on an unparseable string. -/
def toFloat (s : String) : Except String ℚ :=
  match pyFloatOfStr s with
  | none => .error valErrMsg
  | some q => .ok q

/-- The Python `dict(zip(titles, row))` a row is parsed through. -/
def rowDict (titles row : List String) : List (String × String) :=
  buildDict (titles.zip row)

/-- `Vacancy.__init__` on `dict(zip(titles, row))`: field lookups and float
parses in source order, any failure aborting the run. -/
def mkVacancy (titles row : List String) : Except String Vacancy :=
  match keyGet (rowDict titles row) ("name") with
  | .error e => .error e
  | .ok nm =>
    match keyGet (rowDict titles row) ("salary_from") with
    | .error e => .error e
    | .ok sfs =>
      match toFloat sfs with
      | .error e => .error e
      | .ok sf =>
        match keyGet (rowDict titles row) ("salary_to") with
        | .error e => .error e
        | .ok sts =>
          match toFloat sts with
          | .error e => .error e
          | .ok st =>
            match keyGet (rowDict titles row) ("salary_currency") with
            | .error e => .error e
            | .ok cur =>
              match keyGet (rowDict titles row) ("area_name") with
              | .error e => .error e
              | .ok area =>
                match keyGet (rowDict titles row) ("published_at") with
                | .error e => .error e
                | .ok pub => .ok ⟨nm, sf, st, cur, area, pub⟩

/-- `Vacancy.get_average_rub_salary`: `0.5 * (from + to) * rate`, raising
KeyError on a currency outside `currency_to_rub`. -/
def Vacancy.get_average_rub_salary (v : Vacancy) : Except String ℚ :=
  match odFind currency_to_rub v.salary_currency with
  | none => .error keyErrMsg
  | some r => .ok (1 / 2 * (v.salary_from + v.salary_to) * r)

/-- `Vacancy.get_published_vacancy_year`: `int(published_at[:4])`. -/
def Vacancy.get_published_vacancy_year (v : Vacancy) : Except String ℤ :=
  match pyIntOfStr (v.published_at.take 4) with
  | none => .error valErrMsg
  | some y => .ok y

/-- The per-record digest actually consumed by the accumulators of
`parse_csv`: title, city, mean rouble salary, published year. -/
structure Rec where
  rname : String
  area : String
  ms : ℚ
  year : ℤ
deriving DecidableEq, Repr

/-- Builds a record digest from a raw row: construction, salary
normalisation and year extraction, each fallible as in the source. -/
def digestOf (titles row : List String) : Except String Rec :=
  match mkVacancy titles row with
  | .error e => .error e
  | .ok v =>
    match v.get_average_rub_salary with
    | .error e => .error e
    | .ok m =>
      match v.get_published_vacancy_year with
      | .error e => .error e
      | .ok y => .ok ⟨v.name, v.area_name, m, y⟩

/-- The validation test of `parse_csv` line 106:
`len(row) == len(titles) and all(row)`. -/
def validShape (titles row : List String) : Bool :=
  row.length == titles.length && row.all (fun s => !s.isEmpty)

/-- The mutable accumulators of `DataSet.parse_csv`. -/
structure PState where
  salary : List (ℤ × List ℚ)
  amount : List (ℤ × ℕ)
  vacancy_salary : List (ℤ × List ℚ)
  vacancy_amount : List (ℤ × ℕ)
  salary_city : List (String × List ℚ)
  share_city : List (String × ℕ)
  count : ℕ
deriving DecidableEq, Repr

/-- The empty accumulators at the start of `parse_csv`. -/
def initState : PState := ⟨[], [], [], [], [], [], 0⟩

/-- One loop iteration of `parse_csv` on an already-validated record:
append the mean salary to the year and city buckets, bump the counters,
and feed the filtered buckets when the title contains the profession. -/
def accum (vname : String) (st : PState) (r : Rec) : PState :=
  { salary := odUpd st.salary r.year (fun l => l ++ [r.ms]) [r.ms]
    amount := odUpd st.amount r.year (fun n => n + 1) 1
    vacancy_salary :=
      if hasSubstr vname r.rname then
        odUpd st.vacancy_salary r.year (fun l => l ++ [r.ms]) [r.ms]
      else st.vacancy_salary
    vacancy_amount :=
      if hasSubstr vname r.rname then
        odUpd st.vacancy_amount r.year (fun n => n + 1) 1
      else st.vacancy_amount
    salary_city := odUpd st.salary_city r.area (fun l => l ++ [r.ms]) [r.ms]
    share_city := odUpd st.share_city r.area (fun n => n + 1) 1
    count := st.count + 1 }

/-- One loop iteration of `parse_csv` on a raw row: a row failing the
shape test is skipped silently, any other row is digested (a digest
failure aborting the run) and accumulated. -/
def pstep (vname : String) (titles : List String) (st : PState) (row : List String) :
    Except String PState :=
  if validShape titles row then (digestOf titles row).map (accum vname st) else .ok st

/-- The loop of `parse_csv` over the data rows. -/
def parseRows (vname : String) (titles : List String) (st : PState) :
    List (List String) → Except String PState
  | [] => .ok st
  | row :: rest =>
    match pstep vname titles st row with
    | .error e => .error e
    | .ok st1 => parseRows vname titles st1 rest

/-- `DataSet.parse_csv`: the header is `rows[0]` (IndexError when there is
no row at all), the remaining rows feed the accumulator loop. -/
def parse_csv (vname : String) (rows : List (List String)) : Except String PState :=
  match rows with
  | [] => .error idxErrMsg
  | titles :: body => parseRows vname titles initState body

/-- The digests of the rows the validation admits, in file order, ignoring
digest failures — equal to the records `parse_csv` accumulates whenever
`parse_csv` succeeds. -/
def digestsOf (titles : List String) (body : List (List String)) : List Rec :=
  body.filterMap (fun row =>
    if validShape titles row then (digestOf titles row).toOption else none)

/-- The rounded share map of `get_clear_data`:
`share_city[k] = round(v / count, 4)`. -/
def shareRounded (m : List (String × ℕ)) (count : ℕ) : List (String × ℚ) :=
  m.map (fun p => (p.1, round4 ((p.2 : ℚ) / (count : ℚ))))

/-- The share filter of `get_clear_data` line 160: keep pairs with
rounded share strictly above `0.01`. -/
def shareKept (m : List (String × ℕ)) (count : ℕ) : List (String × ℚ) :=
  (shareRounded m count).filter (fun p => decide (1 / 100 < p.2))

/-- Stable insertion (descending by value): the new pair goes in front of
the first strictly smaller value, after every earlier equal value. -/
def insDesc {κ β : Type} [LinearOrder β] (a : κ × β) : List (κ × β) → List (κ × β)
  | [] => [a]
  | b :: l => if b.2 ≤ a.2 then a :: b :: l else b :: insDesc a l

/-- Python `sorted(..., key=lambda x: x[-1], reverse=True)`: the unique
stable descending sort by value. -/
def sortValDesc {κ β : Type} [LinearOrder β] (l : List (κ × β)) : List (κ × β) :=
  l.foldr insDesc []

/-- The city average-salary list of `get_clear_data` line 163, restricted
to cities surviving the share filter, in first-seen order. -/
def salaryCityPre (st : PState) : List (String × ℤ) :=
  (get_salary_avg st.salary_city).filter
    (fun p => (shareKept st.share_city st.count).any (fun q => q.1 == p.1))

/-- The finalized statistics bundle of `DataSet.get_clear_data`. -/
structure Bundle where
  salary : List (ℤ × ℤ)
  amount : List (ℤ × ℕ)
  vacancy_salary : List (ℤ × ℤ)
  vacancy_amount : List (ℤ × ℕ)
  salary_city : List (String × ℤ)
  share_city : List (String × ℚ)
deriving DecidableEq, Repr

/-- The finishing pass of `DataSet.get_clear_data`: averaging, share
computation (a ZeroDivisionError exactly when a share is computed with
`count = 0`, i.e. when the city map is non-empty), filtering, the two
stable descending sorts and the top-10 truncations. -/
def finalize (st : PState) : Except String Bundle :=
  if st.count = 0 ∧ st.share_city ≠ [] then .error divErrMsg
  else .ok
    { salary := get_salary_avg st.salary
      amount := st.amount
      vacancy_salary := get_salary_avg st.vacancy_salary
      vacancy_amount := st.vacancy_amount
      salary_city := (sortValDesc (salaryCityPre st)).take 10
      share_city := (sortValDesc (shareKept st.share_city st.count)).take 10 }

/-- `DataSet.get_clear_data`: parse then finalize. -/
def get_clear_data (vname : String) (rows : List (List String)) : Except String Bundle :=
  match parse_csv vname rows with
  | .error e => .error e
  | .ok st => finalize st

/-- True when the computation completed without raising. -/
def exceptOk {ε α : Type} : Except ε α → Bool
  | .ok _ => true
  | .error _ => false

instance {ε α : Type} [DecidableEq ε] [DecidableEq α] : DecidableEq (Except ε α) := fun x y =>
  match x, y with
  | .error a, .error b => decidable_of_iff (a = b) (by simp)
  | .ok a, .ok b => decidable_of_iff (a = b) (by simp)
  | .error _, .ok _ => isFalse (by simp)
  | .ok _, .error _ => isFalse (by simp)

/-- The valid records of the input whose published year is `y`. -/
def yearRecs (titles : List String) (body : List (List String)) (y : ℤ) : List Rec :=
  (digestsOf titles body).filter (fun r => decide (r.year = y))

/-- The valid records with published year `y` whose title contains the
profession filter string. -/
def yearRecsFil (vname : String) (titles : List String) (body : List (List String))
    (y : ℤ) : List Rec :=
  (digestsOf titles body).filter (fun r => hasSubstr vname r.rname && decide (r.year = y))

/-- The valid records of the input whose city is `c`. -/
def cityRecs (titles : List String) (body : List (List String)) (c : String) : List Rec :=
  (digestsOf titles body).filter (fun r => decide (r.area = c))

/-- The header of the example inputs: the six required field names. -/
def hdr6 : List String :=
  ["name", "salary_from", "salary_to", "salary_currency", "area_name", "published_at"]

/-- A valid example data row placed in the given city. -/
def rowIn (city : String) : List String :=
  ["x", "10", "20", "RUR", city, "2007-12"]

/-- Six valid rows in six distinct cities: every city holds one record of
six, so every rounded share is `round(1/6, 4) = 0.1667`. -/
def sixBody : List (List String) :=
  [rowIn ("A"), rowIn ("B"), rowIn ("C"), rowIn ("D"), rowIn ("E"), rowIn ("F")]

/-- The six-city example file: header plus the six data rows. -/
def sixCityRows : List (List String) := hdr6 :: sixBody

/-- The parse state the six-city example reaches under the profession
filter string `x`, which every title contains. -/
def sixCityState : PState :=
  { salary := [(2007, [15, 15, 15, 15, 15, 15])]
    amount := [(2007, 6)]
    vacancy_salary := [(2007, [15, 15, 15, 15, 15, 15])]
    vacancy_amount := [(2007, 6)]
    salary_city :=
      [("A", [15]), ("B", [15]), ("C", [15]), ("D", [15]), ("E", [15]), ("F", [15])]
    share_city := [("A", 1), ("B", 1), ("C", 1), ("D", 1), ("E", 1), ("F", 1)]
    count := 6 }

/-- A row whose `salary_from` field is not numeric. -/
def badFloatRow : List String := ["x", "abc", "20", "RUR", "A", "2007-12"]

/-- A valid example vacancy record used by witnesses. -/
def vacEx : Vacancy := ⟨"x", 10, 10, "RUR", "A", "2007-12"⟩

/-- A one-record parse state used to exercise the finishing pass. -/
def smallState : PState := ⟨[], [], [], [], [("A", [15])], [("A", 1)], 1⟩

/-- The bundle the finishing pass produces from `smallState`. -/
def smallBundle : Bundle := ⟨[], [], [], [], [("A", 15)], [("A", 1)]⟩

/-! ## Lemmas on the ordered-dictionary operations -/

theorem odFind_odUpd_self {κ α : Type} [DecidableEq κ] (m : List (κ × α))
    (k : κ) (f : α → α) (d : α) :
    odFind (odUpd m k f d) k = some ((odFind m k).elim d f) := by
  induction m with
  | nil => simp [odUpd, odFind]
  | cons p t ih =>
    obtain ⟨k1, v⟩ := p
    by_cases h : k = k1
    · simp [odUpd, odFind, h]
    · simp [odUpd, odFind, h, ih]

theorem odFind_odUpd_ne {κ α : Type} [DecidableEq κ] (m : List (κ × α))
    (k j : κ) (f : α → α) (d : α) (h : j ≠ k) :
    odFind (odUpd m k f d) j = odFind m j := by
  induction m with
  | nil => simp [odUpd, odFind, h]
  | cons p t ih =>
    obtain ⟨k1, v⟩ := p
    by_cases h1 : k = k1
    · subst h1
      simp [odUpd, odFind, h]
    · by_cases h2 : j = k1 <;> simp [odUpd, odFind, h1, h2, ih]

theorem sumVals_odUpd {κ : Type} [DecidableEq κ] (m : List (κ × ℕ)) (k : κ) :
    sumVals (odUpd m k (fun n => n + 1) 1) = sumVals m + 1 := by
  induction m with
  | nil => simp [odUpd, sumVals]
  | cons p t ih =>
    obtain ⟨k1, v⟩ := p
    by_cases h : k = k1
    · simp [odUpd, sumVals, h]
      ring
    · simp only [odUpd, sumVals, if_neg h, List.map_cons, List.sum_cons] at ih ⊢
      omega

theorem mem_odUpd_val {κ α : Type} [DecidableEq κ] {m : List (κ × α)}
    {k : κ} {f : α → α} {d : α} (P : α → Prop)
    (hm : ∀ p ∈ m, P p.2) (hd : P d) (hf : ∀ v, P v → P (f v)) :
    ∀ p ∈ odUpd m k f d, P p.2 := by
  induction m with
  | nil =>
    intro p hp
    simp [odUpd] at hp
    simp [hp, hd]
  | cons q t ih =>
    obtain ⟨k1, v⟩ := q
    intro p hp
    by_cases h : k = k1
    · simp only [odUpd, if_pos h] at hp
      rcases List.mem_cons.mp hp with h1 | h1
      · subst h1
        exact hf v (hm (k1, v) (List.mem_cons_self _ _))
      · exact hm p (List.mem_cons_of_mem _ h1)
    · simp only [odUpd, if_neg h] at hp
      rcases List.mem_cons.mp hp with h1 | h1
      · subst h1
        exact hm (k1, v) (List.mem_cons_self _ _)
      · exact ih (fun q hq => hm q (List.mem_cons_of_mem _ hq)) p h1

theorem mem_keys_odUpd {κ α : Type} [DecidableEq κ] (m : List (κ × α))
    (k j : κ) (f : α → α) (d : α) :
    j ∈ (odUpd m k f d).map Prod.fst ↔ j ∈ m.map Prod.fst ∨ j = k := by
  induction m with
  | nil => simp [odUpd]
  | cons p t ih =>
    obtain ⟨k1, v⟩ := p
    by_cases h : k = k1
    · subst h
      by_cases h2 : j = k <;> simp [odUpd, h2]
    · simp only [odUpd, if_neg h, List.map_cons, List.mem_cons, ih]
      tauto

theorem keys_odUpd_nodup {κ α : Type} [DecidableEq κ] {m : List (κ × α)}
    (k : κ) (f : α → α) (d : α) (h : (m.map Prod.fst).Nodup) :
    ((odUpd m k f d).map Prod.fst).Nodup := by
  induction m with
  | nil => simp [odUpd]
  | cons p t ih =>
    obtain ⟨k1, v⟩ := p
    simp only [List.map_cons, List.nodup_cons] at h
    by_cases hk : k = k1
    · simp only [odUpd, if_pos hk, List.map_cons, List.nodup_cons]
      exact ⟨h.1, h.2⟩
    · simp only [odUpd, if_neg hk, List.map_cons, List.nodup_cons]
      refine ⟨?_, ih h.2⟩
      rw [mem_keys_odUpd]
      rintro (h1 | h1)
      · exact h.1 h1
      · exact hk h1.symm

/-! ## Projections of the accumulator fold -/

theorem foldl_funext {α β : Type} (f g : α → β → α) (h : ∀ a b, f a b = g a b)
    (init : α) (l : List β) : List.foldl f init l = List.foldl g init l := by
  induction l generalizing init with
  | nil => rfl
  | cons b t ih => simp only [List.foldl_cons, h, ih]

theorem foldl_accum_count (v : String) (rs : List Rec) (st : PState) :
    (List.foldl (accum v) st rs).count = st.count + rs.length := by
  induction rs generalizing st with
  | nil => simp
  | cons r t ih =>
    simp only [List.foldl_cons, ih, accum, List.length_cons]
    omega

theorem foldl_accum_salary (v : String) (rs : List Rec) (st : PState) :
    (List.foldl (accum v) st rs).salary
      = List.foldl (fun m r => odUpd m r.year (fun l => l ++ [r.ms]) [r.ms])
          st.salary rs := by
  induction rs generalizing st with
  | nil => rfl
  | cons r t ih => simp only [List.foldl_cons, ih, accum]

theorem foldl_accum_amount (v : String) (rs : List Rec) (st : PState) :
    (List.foldl (accum v) st rs).amount
      = List.foldl (fun m r => odUpd m r.year (fun n => n + 1) 1) st.amount rs := by
  induction rs generalizing st with
  | nil => rfl
  | cons r t ih => simp only [List.foldl_cons, ih, accum]

theorem foldl_accum_vacancy_salary (v : String) (rs : List Rec) (st : PState) :
    (List.foldl (accum v) st rs).vacancy_salary
      = List.foldl
          (fun m r =>
            if hasSubstr v r.rname then odUpd m r.year (fun l => l ++ [r.ms]) [r.ms] else m)
          st.vacancy_salary rs := by
  induction rs generalizing st with
  | nil => rfl
  | cons r t ih => simp only [List.foldl_cons, ih, accum]

theorem foldl_accum_vacancy_amount (v : String) (rs : List Rec) (st : PState) :
    (List.foldl (accum v) st rs).vacancy_amount
      = List.foldl
          (fun m r => if hasSubstr v r.rname then odUpd m r.year (fun n => n + 1) 1 else m)
          st.vacancy_amount rs := by
  induction rs generalizing st with
  | nil => rfl
  | cons r t ih => simp only [List.foldl_cons, ih, accum]

theorem foldl_accum_salary_city (v : String) (rs : List Rec) (st : PState) :
    (List.foldl (accum v) st rs).salary_city
      = List.foldl (fun m r => odUpd m r.area (fun l => l ++ [r.ms]) [r.ms])
          st.salary_city rs := by
  induction rs generalizing st with
  | nil => rfl
  | cons r t ih => simp only [List.foldl_cons, ih, accum]

theorem foldl_accum_share_city (v : String) (rs : List Rec) (st : PState) :
    (List.foldl (accum v) st rs).share_city
      = List.foldl (fun m r => odUpd m r.area (fun n => n + 1) 1) st.share_city rs := by
  induction rs generalizing st with
  | nil => rfl
  | cons r t ih => simp only [List.foldl_cons, ih, accum]

/-! ## Characterisation of the bucket maps built by the fold -/

theorem odFind_foldl_app {κ : Type} [DecidableEq κ] (key : Rec → κ) (p : Rec → Bool)
    (rs : List Rec) (k : κ) :
    odFind
        (List.foldl
          (fun m r => if p r then odUpd m (key r) (fun l => l ++ [r.ms]) [r.ms] else m)
          [] rs) k
      = (if ((rs.filter (fun r => p r && decide (key r = k))).map (fun r => r.ms)) = []
          then none
          else some ((rs.filter (fun r => p r && decide (key r = k))).map (fun r => r.ms))) := by
  induction rs using List.reverseRecOn with
  | nil => simp [odFind]
  | append_singleton l a ih =>
    rw [List.foldl_append]
    simp only [List.foldl_cons, List.foldl_nil]
    by_cases hp : p a
    · by_cases hk : key a = k
      · subst hk
        rw [if_pos hp, odFind_odUpd_self, ih]
        have hfa : (List.filter (fun r => p r && decide (key r = key a)) [a]) = [a] := by
          simp [hp]
        rw [List.filter_append, List.map_append, hfa]
        by_cases hno : ((l.filter (fun r => p r && decide (key r = key a))).map
            (fun r => r.ms)) = []
        · rw [hno]
          simp
        · simp [hno]
      · have hk2 : k ≠ key a := fun h => hk h.symm
        rw [if_pos hp, odFind_odUpd_ne _ _ _ _ _ hk2, ih]
        have hfa : (List.filter (fun r => p r && decide (key r = k)) [a]) = [] := by
          simp [hk]
        rw [List.filter_append, List.map_append, hfa]
        simp
    · rw [if_neg hp]
      have hp2 : p a = false := by simpa using hp
      have hfa : (List.filter (fun r => p r && decide (key r = k)) [a]) = [] := by
        simp [hp2]
      rw [List.filter_append, List.map_append, hfa, List.map_nil, List.append_nil]
      exact ih

theorem odFind_foldl_cnt {κ : Type} [DecidableEq κ] (key : Rec → κ) (p : Rec → Bool)
    (rs : List Rec) (k : κ) :
    odFind
        (List.foldl (fun m r => if p r then odUpd m (key r) (fun n => n + 1) 1 else m) [] rs) k
      = (if (rs.filter (fun r => p r && decide (key r = k))).length = 0 then none
          else some ((rs.filter (fun r => p r && decide (key r = k))).length)) := by
  induction rs using List.reverseRecOn with
  | nil => simp [odFind]
  | append_singleton l a ih =>
    rw [List.foldl_append]
    simp only [List.foldl_cons, List.foldl_nil]
    by_cases hp : p a
    · by_cases hk : key a = k
      · subst hk
        rw [if_pos hp, odFind_odUpd_self, ih]
        have hfa : (List.filter (fun r => p r && decide (key r = key a)) [a]) = [a] := by
          simp [hp]
        rw [List.filter_append, hfa, List.length_append]
        by_cases hno : (l.filter (fun r => p r && decide (key r = key a))).length = 0
        · rw [hno]
          simp
        · simp [hno]
      · have hk2 : k ≠ key a := fun h => hk h.symm
        rw [if_pos hp, odFind_odUpd_ne _ _ _ _ _ hk2, ih]
        have hfa : (List.filter (fun r => p r && decide (key r = k)) [a]) = [] := by
          simp [hk]
        rw [List.filter_append, hfa, List.append_nil]
    · rw [if_neg hp]
      have hp2 : p a = false := by simpa using hp
      have hfa : (List.filter (fun r => p r && decide (key r = k)) [a]) = [] := by
        simp [hp2]
      rw [List.filter_append, hfa, List.append_nil]
      exact ih

theorem sumVals_foldl_cnt {κ : Type} [DecidableEq κ] (key : Rec → κ) (p : Rec → Bool)
    (rs : List Rec) :
    sumVals
        (List.foldl (fun m r => if p r then odUpd m (key r) (fun n => n + 1) 1 else m) [] rs)
      = (rs.filter p).length := by
  induction rs using List.reverseRecOn with
  | nil => simp [sumVals]
  | append_singleton l a ih =>
    rw [List.foldl_append]
    simp only [List.foldl_cons, List.foldl_nil]
    by_cases hp : p a
    · rw [if_pos hp, sumVals_odUpd, ih, List.filter_append]
      simp [List.filter_cons, hp]
    · rw [if_neg hp]
      have hp2 : p a = false := by simpa using hp
      rw [ih, List.filter_append]
      simp [List.filter_cons, hp2]

theorem mem_foldl_app_ne {κ : Type} [DecidableEq κ] (key : Rec → κ) (p : Rec → Bool)
    (rs : List Rec) :
    ∀ q ∈ List.foldl
        (fun m r => if p r then odUpd m (key r) (fun l => l ++ [r.ms]) [r.ms] else m) [] rs,
      q.2 ≠ ([] : List ℚ) := by
  induction rs using List.reverseRecOn with
  | nil => simp
  | append_singleton l a ih =>
    rw [List.foldl_append]
    simp only [List.foldl_cons, List.foldl_nil]
    by_cases hp : p a
    · rw [if_pos hp]
      exact mem_odUpd_val (fun x => x ≠ ([] : List ℚ)) ih (by simp)
        (fun v hv => by simp)
    · rw [if_neg hp]
      exact ih

theorem keys_foldl_app_nodup {κ : Type} [DecidableEq κ] (key : Rec → κ) (p : Rec → Bool)
    (rs : List Rec) :
    ((List.foldl
        (fun m r => if p r then odUpd m (key r) (fun l => l ++ [r.ms]) [r.ms] else m)
        [] rs).map Prod.fst).Nodup := by
  induction rs using List.reverseRecOn with
  | nil => simp
  | append_singleton l a ih =>
    rw [List.foldl_append]
    simp only [List.foldl_cons, List.foldl_nil]
    by_cases hp : p a
    · rw [if_pos hp]
      exact keys_odUpd_nodup _ _ _ ih
    · rw [if_neg hp]
      exact ih

theorem keys_foldl_cnt_nodup {κ : Type} [DecidableEq κ] (key : Rec → κ) (p : Rec → Bool)
    (rs : List Rec) :
    ((List.foldl
        (fun m r => if p r then odUpd m (key r) (fun n => n + 1) 1 else m)
        [] rs).map Prod.fst).Nodup := by
  induction rs using List.reverseRecOn with
  | nil => simp
  | append_singleton l a ih =>
    rw [List.foldl_append]
    simp only [List.foldl_cons, List.foldl_nil]
    by_cases hp : p a
    · rw [if_pos hp]
      exact keys_odUpd_nodup _ _ _ ih
    · rw [if_neg hp]
      exact ih

/-! ## Unguarded variants for the unfiltered maps -/

theorem odFind_foldl_app_all {κ : Type} [DecidableEq κ] (key : Rec → κ)
    (rs : List Rec) (k : κ) :
    odFind
        (List.foldl (fun m r => odUpd m (key r) (fun l => l ++ [r.ms]) [r.ms]) [] rs) k
      = (if ((rs.filter (fun r => decide (key r = k))).map (fun r => r.ms)) = []
          then none
          else some ((rs.filter (fun r => decide (key r = k))).map (fun r => r.ms))) := by
  induction rs using List.reverseRecOn with
  | nil => simp [odFind]
  | append_singleton l a ih =>
    rw [List.foldl_append]
    simp only [List.foldl_cons, List.foldl_nil]
    by_cases hk : key a = k
    · subst hk
      rw [odFind_odUpd_self, ih]
      have hfa : (List.filter (fun r => decide (key r = key a)) [a]) = [a] := by simp
      rw [List.filter_append, List.map_append, hfa]
      by_cases hno : ((l.filter (fun r => decide (key r = key a))).map (fun r => r.ms)) = []
      · rw [hno]
        simp
      · simp [hno]
    · have hk2 : k ≠ key a := fun h => hk h.symm
      rw [odFind_odUpd_ne _ _ _ _ _ hk2, ih]
      have hfa : (List.filter (fun r => decide (key r = k)) [a]) = [] := by simp [hk]
      rw [List.filter_append, List.map_append, hfa, List.map_nil, List.append_nil]

theorem odFind_foldl_cnt_all {κ : Type} [DecidableEq κ] (key : Rec → κ)
    (rs : List Rec) (k : κ) :
    odFind (List.foldl (fun m r => odUpd m (key r) (fun n => n + 1) 1) [] rs) k
      = (if (rs.filter (fun r => decide (key r = k))).length = 0 then none
          else some ((rs.filter (fun r => decide (key r = k))).length)) := by
  induction rs using List.reverseRecOn with
  | nil => simp [odFind]
  | append_singleton l a ih =>
    rw [List.foldl_append]
    simp only [List.foldl_cons, List.foldl_nil]
    by_cases hk : key a = k
    · subst hk
      rw [odFind_odUpd_self, ih]
      have hfa : (List.filter (fun r => decide (key r = key a)) [a]) = [a] := by simp
      rw [List.filter_append, hfa, List.length_append]
      by_cases hno : (l.filter (fun r => decide (key r = key a))).length = 0
      · rw [hno]
        simp
      · simp [hno]
    · have hk2 : k ≠ key a := fun h => hk h.symm
      rw [odFind_odUpd_ne _ _ _ _ _ hk2, ih]
      have hfa : (List.filter (fun r => decide (key r = k)) [a]) = [] := by simp [hk]
      rw [List.filter_append, hfa, List.append_nil]

theorem sumVals_foldl_all {κ : Type} [DecidableEq κ] (key : Rec → κ) (rs : List Rec) :
    sumVals (List.foldl (fun m r => odUpd m (key r) (fun n => n + 1) 1) [] rs)
      = rs.length := by
  induction rs using List.reverseRecOn with
  | nil => simp [sumVals]
  | append_singleton l a ih =>
    rw [List.foldl_append]
    simp only [List.foldl_cons, List.foldl_nil]
    rw [sumVals_odUpd, ih, List.length_append]
    simp

theorem mem_foldl_app_ne_all {κ : Type} [DecidableEq κ] (key : Rec → κ) (rs : List Rec) :
    ∀ q ∈ List.foldl (fun m r => odUpd m (key r) (fun l => l ++ [r.ms]) [r.ms]) [] rs,
      q.2 ≠ ([] : List ℚ) := by
  induction rs using List.reverseRecOn with
  | nil => simp
  | append_singleton l a ih =>
    rw [List.foldl_append]
    simp only [List.foldl_cons, List.foldl_nil]
    exact mem_odUpd_val (fun x => x ≠ ([] : List ℚ)) ih (by simp) (fun v hv => by simp)

theorem keys_foldl_cnt_nodup_all {κ : Type} [DecidableEq κ] (key : Rec → κ)
    (rs : List Rec) :
    ((List.foldl (fun m r => odUpd m (key r) (fun n => n + 1) 1) [] rs).map
        Prod.fst).Nodup := by
  induction rs using List.reverseRecOn with
  | nil => simp
  | append_singleton l a ih =>
    rw [List.foldl_append]
    simp only [List.foldl_cons, List.foldl_nil]
    exact keys_odUpd_nodup _ _ _ ih

/-! ## The successful parse is the fold over the validated records -/

theorem parseRows_ok_foldl (vname : String) (titles : List String)
    (body : List (List String)) :
    ∀ st st2, parseRows vname titles st body = .ok st2 →
      st2 = List.foldl (accum vname) st (digestsOf titles body) := by
  induction body with
  | nil =>
    intro st st2 h
    simp only [parseRows] at h
    cases h
    simp [digestsOf]
  | cons row rest ih =>
    intro st st2 h
    simp only [parseRows] at h
    by_cases hv : validShape titles row = true
    · cases hd : digestOf titles row with
      | error e =>
        simp only [pstep, if_pos hv, hd, Except.map] at h
        exact absurd h (by simp)
      | ok r =>
        simp only [pstep, if_pos hv, hd, Except.map] at h
        have h2 := ih _ _ h
        simp only [digestsOf, List.filterMap_cons, if_pos hv, hd, Except.toOption] at h2 ⊢
        simpa [List.foldl_cons, digestsOf] using h2
    · simp only [pstep, if_neg hv] at h
      have h2 := ih _ _ h
      simp only [digestsOf, List.filterMap_cons, if_neg hv] at h2 ⊢
      simpa [digestsOf] using h2

theorem parse_csv_ok_foldl (vname : String) (titles : List String)
    (body : List (List String)) (st : PState)
    (h : parse_csv vname (titles :: body) = .ok st) :
    st = List.foldl (accum vname) initState (digestsOf titles body) :=
  parseRows_ok_foldl vname titles body initState st (by simpa [parse_csv] using h)

theorem odFind_get_salary_avg {κ : Type} [DecidableEq κ] (m : List (κ × List ℚ)) (k : κ) :
    odFind (get_salary_avg m) k = (odFind m k).map listAvg := by
  induction m with
  | nil => rfl
  | cons p t ih =>
    obtain ⟨k1, v⟩ := p
    by_cases h : k = k1 <;> simp [get_salary_avg, odFind, h] <;>
      simpa [get_salary_avg] using ih

theorem length_filter_and_le {α : Type} (p q : α → Bool) (l : List α) :
    (l.filter (fun a => p a && q a)).length ≤ (l.filter q).length := by
  induction l with
  | nil => simp
  | cons a t ih =>
    simp only [List.filter_cons]
    cases hq : q a
    · have h2 : (p a && q a) = false := by simp [hq]
      simpa [h2] using ih
    · cases hp : p a
      · have h2 : (p a && q a) = false := by simp [hp]
        simp only [h2, hq, if_true, if_false, Bool.false_eq_true, List.length_cons]
        exact Nat.le_succ_of_le ih
      · have h2 : (p a && q a) = true := by simp [hp, hq]
        simp only [h2, hq, if_true, List.length_cons]
        exact Nat.succ_le_succ ih

/-! ## The stable descending sort -/

theorem mem_insDesc {κ β : Type} [LinearOrder β] (a x : κ × β) (l : List (κ × β)) :
    x ∈ insDesc a l ↔ x = a ∨ x ∈ l := by
  induction l with
  | nil => simp [insDesc]
  | cons b t ih =>
    by_cases h : b.2 ≤ a.2
    · simp [insDesc, h]
    · simp only [insDesc, if_neg h, List.mem_cons, ih]
      tauto

theorem insDesc_perm {κ β : Type} [LinearOrder β] (a : κ × β) (l : List (κ × β)) :
    (insDesc a l).Perm (a :: l) := by
  induction l with
  | nil => simp [insDesc]
  | cons b t ih =>
    by_cases h : b.2 ≤ a.2
    · rw [insDesc, if_pos h]
    · rw [insDesc, if_neg h]
      exact (ih.cons b).trans (List.Perm.swap a b t)

theorem sortValDesc_perm {κ β : Type} [LinearOrder β] (l : List (κ × β)) :
    (sortValDesc l).Perm l := by
  induction l with
  | nil => simp [sortValDesc]
  | cons a t ih =>
    simp only [sortValDesc, List.foldr_cons]
    exact (insDesc_perm a _).trans (List.Perm.cons a (by simpa [sortValDesc] using ih))

theorem pairwise_insDesc {κ β : Type} [LinearOrder β] (a : κ × β) (l : List (κ × β))
    (h : List.Pairwise (fun p q => q.2 ≤ p.2) l) :
    List.Pairwise (fun p q => q.2 ≤ p.2) (insDesc a l) := by
  induction l with
  | nil => simp [insDesc]
  | cons b t ih =>
    rcases List.pairwise_cons.mp h with ⟨hb, ht⟩
    by_cases hba : b.2 ≤ a.2
    · rw [insDesc, if_pos hba]
      refine List.pairwise_cons.mpr ⟨?_, h⟩
      intro x hx
      rcases List.mem_cons.mp hx with rfl | hx
      · exact hba
      · exact le_trans (hb x hx) hba
    · rw [insDesc, if_neg hba]
      refine List.pairwise_cons.mpr ⟨?_, ih ht⟩
      intro x hx
      rcases (mem_insDesc a x t).mp hx with rfl | hx
      · exact le_of_lt (not_le.mp hba)
      · exact hb x hx

theorem sortValDesc_pairwise {κ β : Type} [LinearOrder β] (l : List (κ × β)) :
    List.Pairwise (fun p q => q.2 ≤ p.2) (sortValDesc l) := by
  induction l with
  | nil => simp [sortValDesc]
  | cons a t ih =>
    simp only [sortValDesc, List.foldr_cons]
    exact pairwise_insDesc a _ (by simpa [sortValDesc] using ih)

theorem filter_insDesc {κ β : Type} [LinearOrder β] [DecidableEq β]
    (v : β) (a : κ × β) (l : List (κ × β)) :
    (insDesc a l).filter (fun p => decide (p.2 = v))
      = (if a.2 = v then a :: l.filter (fun p => decide (p.2 = v))
          else l.filter (fun p => decide (p.2 = v))) := by
  induction l with
  | nil =>
    by_cases hav : a.2 = v
    · simp [insDesc, List.filter_cons, hav]
    · simp [insDesc, List.filter_cons, hav]
  | cons b t ih =>
    by_cases hba : b.2 ≤ a.2
    · rw [insDesc, if_pos hba, List.filter_cons]
      by_cases hav : a.2 = v
      · simp [hav]
      · simp [hav]
    · rw [insDesc, if_neg hba, List.filter_cons, ih]
      by_cases hav : a.2 = v
      · have hbv : ¬b.2 = v := fun hh => hba (le_of_eq (hh.trans hav.symm))
        simp [List.filter_cons, hav, hbv]
      · simp [List.filter_cons, hav]

theorem sortValDesc_stable {κ β : Type} [LinearOrder β] [DecidableEq β]
    (l : List (κ × β)) (v : β) :
    (sortValDesc l).filter (fun p => decide (p.2 = v))
      = l.filter (fun p => decide (p.2 = v)) := by
  induction l with
  | nil => rfl
  | cons a t ih =>
    simp only [sortValDesc, List.foldr_cons]
    rw [filter_insDesc, List.filter_cons]
    by_cases hav : a.2 = v
    · simp only [if_pos hav, hav, decide_eq_true_eq]
      simpa [sortValDesc] using ih
    · simp only [if_neg hav, hav, decide_eq_true_eq]
      simpa [sortValDesc, hav] using ih

/-! ## Bounds for the rounding operations -/

theorem roundHE_le (q : ℚ) : (roundHE q : ℚ) ≤ q + 1 / 2 := by
  unfold roundHE
  split_ifs with h1 h2 h3
  · linarith [Int.floor_le q]
  · push_cast
    linarith
  · linarith [Int.floor_le q]
  · push_cast
    have h4 : q - (⌊q⌋ : ℚ) = 1 / 2 := le_antisymm (not_lt.mp h2) (not_lt.mp h1)
    linarith

theorem round4_le (q : ℚ) : round4 q ≤ q + 1 / 20000 := by
  unfold round4
  have h := roundHE_le (q * 10000)
  rw [div_le_iff (by norm_num : (0 : ℚ) < 10000)]
  linarith

theorem sum_shareRounded_le (m : List (String × ℕ)) (count : ℕ) :
    ((shareRounded m count).map (fun p => p.2)).sum
      ≤ ((sumVals m : ℕ) : ℚ) / (count : ℚ) + ((m.length : ℕ) : ℚ) / 20000 := by
  induction m with
  | nil => simp [shareRounded, sumVals]
  | cons p t ih =>
    obtain ⟨c, n⟩ := p
    simp only [shareRounded, List.map_cons, List.sum_cons, sumVals,
      List.length_cons] at ih ⊢
    have h1 := round4_le ((n : ℚ) / (count : ℚ))
    push_cast at ih ⊢
    rw [add_div, add_div]
    linarith

/-! ## Concrete evaluations used by witnesses -/

theorem mk_rowIn (c : String) :
    mkVacancy hdr6 (rowIn c) = .ok ⟨"x", 10, 20, "RUR", c, "2007-12"⟩ := by
  rfl

theorem avg_rowIn (c : String) :
    Vacancy.get_average_rub_salary ⟨"x", 10, 20, "RUR", c, "2007-12"⟩ = .ok 15 := by
  rw [Vacancy.get_average_rub_salary]
  simp [odFind, currency_to_rub]
  norm_num

theorem py_take_2007 : pyIntOfStr (String.take ("2007-12") 4) = some 2007 := by
  decide

theorem yr_rowIn (c : String) :
    Vacancy.get_published_vacancy_year ⟨"x", 10, 20, "RUR", c, "2007-12"⟩ = .ok 2007 := by
  rw [Vacancy.get_published_vacancy_year]
  rw [show Vacancy.published_at ⟨"x", 10, 20, "RUR", c, "2007-12"⟩ = ("2007-12") from rfl]
  rw [py_take_2007]

theorem digest_rowIn (c : String) :
    digestOf hdr6 (rowIn c) = .ok ⟨"x", c, 15, 2007⟩ := by
  rw [digestOf]
  simp only [mk_rowIn, avg_rowIn, yr_rowIn]

theorem parse_six_eval : parse_csv ("x") sixCityRows = .ok sixCityState := by
  rw [show sixCityRows
      = hdr6 :: [rowIn ("A"), rowIn ("B"), rowIn ("C"), rowIn ("D"), rowIn ("E"),
        rowIn ("F")] from rfl]
  simp +decide only [parse_csv, parseRows, pstep, digest_rowIn, Except.map]

theorem avg_six_eval : odFind (get_salary_avg sixCityState.salary) 2007 = some 15 := by
  have h1 : listAvg [15, 15, 15, 15, 15, 15] = 15 := by
    rw [listAvg, pyTrunc]
    norm_num
  simp [get_salary_avg, sixCityState, odFind, h1]

/-! ## The claims -/

/-- C1: for every input file and year `y` appearing in the output, the
`amount` map at `y` equals the number of valid records published in year
`y`, and the averaged `salary` map at `y` equals `listAvg` — 0 for an
empty bucket, otherwise the truncated integer mean — of the normalised
salaries of those records. -/
theorem claim_c1 (vname : String) (titles : List String) (body : List (List String))
    (res : PState) (y : ℤ) (h : parse_csv vname (titles :: body) = .ok res) :
    (∀ n : ℕ, odFind res.amount y = some n → n = (yearRecs titles body y).length) ∧
    (∀ a : ℤ, odFind (get_salary_avg res.salary) y = some a →
      a = listAvg ((yearRecs titles body y).map (fun r => r.ms))) := by
  have hres := parse_csv_ok_foldl vname titles body res h
  subst hres
  have hcnt := odFind_foldl_cnt_all (fun r => r.year) (digestsOf titles body) y
  have happ := odFind_foldl_app_all (fun r => r.year) (digestsOf titles body) y
  beta_reduce at hcnt happ
  rw [← yearRecs] at hcnt happ
  constructor
  · intro n hn
    rw [foldl_accum_amount,
      show initState.amount = ([] : List (ℤ × ℕ)) from rfl, hcnt] at hn
    by_cases h0 : (yearRecs titles body y).length = 0
    · rw [if_pos h0] at hn
      exact absurd hn (by simp)
    · rw [if_neg h0] at hn
      exact (Option.some_inj.mp hn).symm
  · intro a ha
    rw [odFind_get_salary_avg, foldl_accum_salary,
      show initState.salary = ([] : List (ℤ × List ℚ)) from rfl, happ] at ha
    by_cases h0 : (yearRecs titles body y).map (fun r => r.ms) = []
    · rw [if_pos h0] at ha
      exact absurd ha (by simp)
    · rw [if_neg h0] at ha
      simp at ha
      exact ha.symm

/-- Witness for C1 at the six-city example: the 2007 bucket counts 6
records and averages to 15. -/
theorem claim_c1_witness :
    6 = (yearRecs hdr6 sixBody 2007).length ∧
    15 = listAvg ((yearRecs hdr6 sixBody 2007).map (fun r => r.ms)) :=
  ⟨(claim_c1 ("x") hdr6 sixBody sixCityState 2007 parse_six_eval).1 6 (by decide),
   (claim_c1 ("x") hdr6 sixBody sixCityState 2007 parse_six_eval).2 15 avg_six_eval⟩

/-- C9: the filtered year maps are subsets of the unfiltered ones — every
year key of `vacancy_amount` appears in `amount` with a count at least as
large — and a record is counted in the filtered maps exactly when its
title contains the profession filter string (case-sensitive substring)
and its year matches. -/
theorem claim_c9 (vname : String) (titles : List String) (body : List (List String))
    (res : PState) (y : ℤ) (h : parse_csv vname (titles :: body) = .ok res) :
    (∀ n : ℕ, odFind res.vacancy_amount y = some n →
      ∃ m : ℕ, odFind res.amount y = some m ∧ n ≤ m) ∧
    odFind res.vacancy_amount y
      = (if (yearRecsFil vname titles body y).length = 0 then none
          else some ((yearRecsFil vname titles body y).length)) := by
  have hres := parse_csv_ok_foldl vname titles body res h
  subst hres
  have hfil := odFind_foldl_cnt (fun r => r.year) (fun r => hasSubstr vname r.rname)
    (digestsOf titles body) y
  have hall := odFind_foldl_cnt_all (fun r => r.year) (digestsOf titles body) y
  beta_reduce at hfil hall
  rw [← yearRecsFil] at hfil
  rw [← yearRecs] at hall
  have h2 : odFind (List.foldl (accum vname) initState (digestsOf titles body)).vacancy_amount y
      = (if (yearRecsFil vname titles body y).length = 0 then none
          else some ((yearRecsFil vname titles body y).length)) := by
    rw [foldl_accum_vacancy_amount,
      show initState.vacancy_amount = ([] : List (ℤ × ℕ)) from rfl, hfil]
  refine ⟨?_, h2⟩
  intro n hn
  rw [h2] at hn
  by_cases h0 : (yearRecsFil vname titles body y).length = 0
  · rw [if_pos h0] at hn
    exact absurd hn (by simp)
  · rw [if_neg h0] at hn
    have hn2 : n = (yearRecsFil vname titles body y).length := (Option.some_inj.mp hn).symm
    have hle : (yearRecsFil vname titles body y).length ≤ (yearRecs titles body y).length :=
      length_filter_and_le _ _ _
    refine ⟨(yearRecs titles body y).length, ?_, by omega⟩
    rw [foldl_accum_amount, show initState.amount = ([] : List (ℤ × ℕ)) from rfl, hall,
      if_neg (by omega : ¬(yearRecs titles body y).length = 0)]

/-- Witness for C9 at the six-city example with filter string `x`: all six
2007 records match the filter. -/
theorem claim_c9_witness :
    odFind sixCityState.vacancy_amount 2007
      = (if (yearRecsFil ("x") hdr6 sixBody 2007).length = 0 then none
          else some ((yearRecsFil ("x") hdr6 sixBody 2007).length)) :=
  (claim_c9 ("x") hdr6 sixBody sixCityState 2007 parse_six_eval).2

/-- C10: after the accumulation pass the global count equals the sum of
the per-year counts and the sum of the per-city counts; every year and
city salary bucket present in the maps is non-empty, so averaging those
buckets always takes the truncated-mean branch, never the 0 branch. -/
theorem claim_c10 (vname : String) (titles : List String) (body : List (List String))
    (res : PState) (h : parse_csv vname (titles :: body) = .ok res) :
    res.count = (digestsOf titles body).length ∧
    sumVals res.amount = res.count ∧
    sumVals res.share_city = res.count ∧
    (∀ p ∈ res.salary, p.2 ≠ []) ∧
    (∀ p ∈ res.salary_city, p.2 ≠ []) ∧
    (∀ p ∈ res.salary, listAvg p.2 = pyTrunc (p.2.sum / ((p.2.length : ℕ) : ℚ))) := by
  have hres := parse_csv_ok_foldl vname titles body res h
  subst hres
  have hcount : (List.foldl (accum vname) initState (digestsOf titles body)).count
      = (digestsOf titles body).length := by
    rw [foldl_accum_count, show initState.count = 0 from rfl]
    omega
  have hsal : ∀ p ∈ (List.foldl (accum vname) initState (digestsOf titles body)).salary,
      p.2 ≠ ([] : List ℚ) := by
    rw [foldl_accum_salary, show initState.salary = ([] : List (ℤ × List ℚ)) from rfl]
    exact mem_foldl_app_ne_all (fun r => r.year) _
  refine ⟨hcount, ?_, ?_, hsal, ?_, ?_⟩
  · rw [foldl_accum_amount, show initState.amount = ([] : List (ℤ × ℕ)) from rfl, hcount]
    exact sumVals_foldl_all (fun r => r.year) _
  · rw [foldl_accum_share_city, show initState.share_city = ([] : List (String × ℕ)) from rfl,
      hcount]
    exact sumVals_foldl_all (fun r => r.area) _
  · rw [foldl_accum_salary_city,
      show initState.salary_city = ([] : List (String × List ℚ)) from rfl]
    exact mem_foldl_app_ne_all (fun r => r.area) _
  · intro p hp
    have hne := hsal p hp
    rw [listAvg, if_neg (fun hlen => hne (List.length_eq_zero.mp hlen))]

/-- Witness for C10 at the six-city example: the count 6 matches the
record count and both value sums. -/
theorem claim_c10_witness :
    sixCityState.count = (digestsOf hdr6 sixBody).length ∧
    sumVals sixCityState.amount = sixCityState.count ∧
    sumVals sixCityState.share_city = sixCityState.count :=
  ⟨(claim_c10 ("x") hdr6 sixBody sixCityState parse_six_eval).1,
   (claim_c10 ("x") hdr6 sixBody sixCityState parse_six_eval).2.1,
   (claim_c10 ("x") hdr6 sixBody sixCityState parse_six_eval).2.2.1⟩

theorem validShape_iff (titles row : List String) :
    validShape titles row = true ↔
      (row.length = titles.length ∧ ∀ s ∈ row, s ≠ ("")) := by
  rw [validShape]
  simp [Bool.and_eq_true, beq_iff_eq, List.all_eq_true, Bool.not_eq_true',
    Bool.eq_false_iff, String.isEmpty_iff]

/-- C2: a data row is skipped silently — the state is returned unchanged —
exactly when its field count differs from the header's or some field is
empty; any row passing validation that is accepted increments the record
count by one. -/
theorem claim_c2 (vname : String) (titles row : List String) (st : PState) :
    (pstep vname titles st row = .ok st ↔
      ¬(row.length = titles.length ∧ ∀ s ∈ row, s ≠ (""))) ∧
    ((row.length = titles.length ∧ ∀ s ∈ row, s ≠ ("")) →
      ∀ st2, pstep vname titles st row = .ok st2 → st2.count = st.count + 1) := by
  constructor
  · constructor
    · intro hok hvalid
      have hv : validShape titles row = true := (validShape_iff titles row).mpr hvalid
      rw [pstep, if_pos hv] at hok
      cases hd : digestOf titles row with
      | error e =>
        rw [hd] at hok
        simp [Except.map] at hok
      | ok r =>
        rw [hd] at hok
        simp [Except.map] at hok
        have hcnt := congrArg PState.count hok
        simp [accum] at hcnt
    · intro hnv
      have hv : validShape titles row = false := by
        rcases Bool.eq_false_or_eq_true (validShape titles row) with h2 | h2
        · exact absurd ((validShape_iff titles row).mp h2) hnv
        · exact h2
      rw [pstep, if_neg (by simp [hv])]
  · intro hvalid st2 hok
    have hv := (validShape_iff titles row).mpr hvalid
    rw [pstep, if_pos hv] at hok
    cases hd : digestOf titles row with
    | error e =>
      rw [hd] at hok
      simp [Except.map] at hok
    | ok r =>
      rw [hd] at hok
      simp [Except.map] at hok
      rw [← hok]
      rfl

/-- Witness for C2: a one-field row is rejected against the six-field
header, leaving the state unchanged. -/
theorem claim_c2_witness :
    pstep ("x") hdr6 initState [("y")] = .ok initState :=
  (claim_c2 ("x") hdr6 [("y")] initState).1.mpr (by decide)

/-- C7: the normalised salary is `0.5 * (salary_from + salary_to) * rate`;
in particular a RUR record with equal bounds X normalises to X, RUR being
the reference currency with rate 1. -/
theorem claim_c7 (v : Vacancy) (r : ℚ)
    (h : odFind currency_to_rub v.salary_currency = some r) :
    v.get_average_rub_salary = .ok (1 / 2 * (v.salary_from + v.salary_to) * r) ∧
    (v.salary_currency = ("RUR") → v.salary_from = v.salary_to →
      v.get_average_rub_salary = .ok v.salary_from) := by
  have h1 : v.get_average_rub_salary = .ok (1 / 2 * (v.salary_from + v.salary_to) * r) := by
    rw [Vacancy.get_average_rub_salary, h]
  refine ⟨h1, fun hc he => ?_⟩
  have hr : r = 1 := by
    rw [hc] at h
    have h2 : odFind currency_to_rub ("RUR") = some (1 : ℚ) := rfl
    rw [h2] at h
    exact (Option.some_inj.mp h).symm
  have hval : 1 / 2 * (v.salary_from + v.salary_to) * r = v.salary_from := by
    rw [hr, ← he]
    ring
  rw [h1, hval]

/-- Witness for C7 at a RUR vacancy with bounds 10/10. -/
theorem claim_c7_witness :
    vacEx.get_average_rub_salary = .ok (1 / 2 * (vacEx.salary_from + vacEx.salary_to) * 1) ∧
    vacEx.get_average_rub_salary = .ok vacEx.salary_from :=
  ⟨(claim_c7 vacEx 1 rfl).1, (claim_c7 vacEx 1 rfl).2 rfl rfl⟩

/-- Counterexample to C5: on a header-only file the pipeline raises no
error at all — the run completes successfully, because the empty city map
makes the share loop perform no division. -/
theorem claim_c5_counterexample :
    exceptOk (get_clear_data ("x") [hdr6]) = true := by
  rfl

/-- C5 (amended): on a header-only file (zero valid records) aggregation
neither crashes nor reports an empty-dataset error: the share loop runs
over an empty city map, so no division by zero occurs, and a bundle of
six empty maps is returned silently. -/
theorem claim_c5 :
    get_clear_data ("x") [hdr6] = .ok ⟨[], [], [], [], [], []⟩ := by
  rfl

theorem keyGet_ok (d : List (String × String)) (k s : String) :
    keyGet d k = .ok s ↔ odFind d k = some s := by
  rw [keyGet]
  cases h : odFind d k <;> simp

theorem toFloat_ok (s : String) (q : ℚ) :
    toFloat s = .ok q ↔ pyFloatOfStr s = some q := by
  rw [toFloat]
  cases h : pyFloatOfStr s <;> simp

theorem mkVacancy_ok_inv (titles row : List String) (v : Vacancy)
    (h : mkVacancy titles row = .ok v) :
    (∃ s, odFind (rowDict titles row) ("salary_from") = some s
      ∧ pyFloatOfStr s = some v.salary_from) ∧
    (∃ s, odFind (rowDict titles row) ("salary_to") = some s
      ∧ pyFloatOfStr s = some v.salary_to) ∧
    odFind (rowDict titles row) ("salary_currency") = some v.salary_currency := by
  rw [mkVacancy] at h
  split at h
  · exact absurd h (by simp)
  · rename_i nm hnm
    split at h
    · exact absurd h (by simp)
    · rename_i sfs hsfs
      split at h
      · exact absurd h (by simp)
      · rename_i sf hsf
        split at h
        · exact absurd h (by simp)
        · rename_i sts hsts
          split at h
          · exact absurd h (by simp)
          · rename_i stq hstq
            split at h
            · exact absurd h (by simp)
            · rename_i cur hcur
              split at h
              · exact absurd h (by simp)
              · rename_i area harea
                split at h
                · exact absurd h (by simp)
                · rename_i pub hpub
                  have hv : v = ⟨nm, sf, stq, cur, area, pub⟩ := by
                    cases h
                    rfl
                  subst hv
                  exact ⟨⟨sfs, (keyGet_ok _ _ _).mp hsfs, (toFloat_ok _ _).mp hsf⟩,
                    ⟨sts, (keyGet_ok _ _ _).mp hsts, (toFloat_ok _ _).mp hstq⟩,
                    (keyGet_ok _ _ _).mp hcur⟩

theorem digestOf_err (titles row : List String)
    (hbad :
      (∃ s, odFind (rowDict titles row) ("salary_from") = some s
        ∧ pyFloatOfStr s = none) ∨
      (∃ s, odFind (rowDict titles row) ("salary_to") = some s
        ∧ pyFloatOfStr s = none) ∨
      (∃ c, odFind (rowDict titles row) ("salary_currency") = some c
        ∧ odFind currency_to_rub c = none)) :
    ∃ e, digestOf titles row = .error e := by
  rw [digestOf]
  cases hmk : mkVacancy titles row with
  | error e => exact ⟨e, rfl⟩
  | ok v =>
    rcases mkVacancy_ok_inv titles row v hmk with ⟨⟨s1, hs1, hp1⟩, ⟨s2, hs2, hp2⟩, hcur⟩
    rcases hbad with ⟨s, hs, hp⟩ | ⟨s, hs, hp⟩ | ⟨c, hc, hrate⟩
    · rw [hs1] at hs
      have heq : s1 = s := Option.some_inj.mp hs
      rw [← heq, hp1] at hp
      exact absurd hp (by simp)
    · rw [hs2] at hs
      have heq : s2 = s := Option.some_inj.mp hs
      rw [← heq, hp2] at hp
      exact absurd hp (by simp)
    · rw [hcur] at hc
      have heq : v.salary_currency = c := Option.some_inj.mp hc
      have havg : v.get_average_rub_salary = .error keyErrMsg := by
        rw [Vacancy.get_average_rub_salary, heq, hrate]
      refine ⟨keyErrMsg, ?_⟩
      simp only [havg]

theorem pstep_err (vname : String) (titles : List String) (st : PState)
    (row : List String) (hv : validShape titles row = true)
    (he : ∃ e, digestOf titles row = .error e) :
    ∃ e, pstep vname titles st row = .error e := by
  rcases he with ⟨e, he⟩
  refine ⟨e, ?_⟩
  rw [pstep, if_pos hv, he]
  rfl

theorem parseRows_err (vname : String) (titles : List String) (row : List String)
    (hstep : ∀ st, ∃ e, pstep vname titles st row = .error e) :
    ∀ (pre : List (List String)) (st : PState) (post : List (List String)),
      ∃ e, parseRows vname titles st (pre ++ row :: post) = .error e := by
  intro pre
  induction pre with
  | nil =>
    intro st post
    rcases hstep st with ⟨e, he⟩
    refine ⟨e, ?_⟩
    rw [List.nil_append]
    simp only [parseRows, he]
  | cons r pre2 ih =>
    intro st post
    cases hs : pstep vname titles st r with
    | error e =>
      refine ⟨e, ?_⟩
      rw [List.cons_append]
      simp only [parseRows, hs]
    | ok st1 =>
      rcases ih st1 post with ⟨e, he⟩
      refine ⟨e, ?_⟩
      rw [List.cons_append]
      simp only [parseRows, hs]
      exact he

/-- C8: for a row that passes shape validation, an unparseable
`salary_from`/`salary_to` value or a currency code outside the fixed
table is fatal: wherever the row sits in the file, the whole run aborts
with an error instead of skipping the row. -/
theorem claim_c8 (vname : String) (titles row : List String)
    (pre post : List (List String))
    (hv : validShape titles row = true)
    (hbad :
      (∃ s, odFind (rowDict titles row) ("salary_from") = some s
        ∧ pyFloatOfStr s = none) ∨
      (∃ s, odFind (rowDict titles row) ("salary_to") = some s
        ∧ pyFloatOfStr s = none) ∨
      (∃ c, odFind (rowDict titles row) ("salary_currency") = some c
        ∧ odFind currency_to_rub c = none)) :
    exceptOk (parse_csv vname (titles :: (pre ++ row :: post))) = false := by
  have hd := digestOf_err titles row hbad
  have hs := fun st => pstep_err vname titles st row hv hd
  rcases parseRows_err vname titles row hs pre initState post with ⟨e, he⟩
  simp only [parse_csv, he, exceptOk]

/-- Witness for C8: one row whose `salary_from` is the non-numeric string
`abc` aborts the run. -/
theorem claim_c8_witness :
    validShape hdr6 badFloatRow = true ∧
    exceptOk (parse_csv ("x") (hdr6 :: ([] ++ badFloatRow :: []))) = false :=
  ⟨by decide, claim_c8 ("x") hdr6 badFloatRow [] [] (by decide)
    (Or.inl ⟨("abc"), by decide, by decide⟩)⟩

theorem parse_share_sum (vname : String) (titles : List String)
    (body : List (List String)) (res : PState)
    (h : parse_csv vname (titles :: body) = .ok res) :
    sumVals res.share_city = res.count := by
  have hres := parse_csv_ok_foldl vname titles body res h
  subst hres
  rw [foldl_accum_share_city, show initState.share_city = ([] : List (String × ℕ)) from rfl,
    foldl_accum_count, show initState.count = 0 from rfl,
    sumVals_foldl_all (fun r => r.area)]
  omega

/-- C3: with at least one valid record, a pair (city, share) survives the
share filter exactly when the city's raw count n rounds to
`share = round(n / count, 4)` strictly above 0.01; city keys of the share
map are unique, so the count n is the city's record count. -/
theorem claim_c3 (vname : String) (titles : List String) (body : List (List String))
    (res : PState) (c : String) (s : ℚ)
    (h : parse_csv vname (titles :: body) = .ok res) (hc : res.count ≠ 0) :
    ((c, s) ∈ shareKept res.share_city res.count ↔
      (∃ n : ℕ, (c, n) ∈ res.share_city ∧
        s = round4 ((n : ℚ) / (res.count : ℚ)) ∧ 1 / 100 < s)) ∧
    (res.share_city.map Prod.fst).Nodup := by
  constructor
  · rw [shareKept, shareRounded]
    constructor
    · intro hmem
      rcases List.mem_filter.mp hmem with ⟨hmem2, hlt⟩
      rcases List.mem_map.mp hmem2 with ⟨p, hp, heq⟩
      obtain ⟨ck, n⟩ := p
      have hck : ck = c := congrArg Prod.fst heq
      have hsv : round4 ((n : ℚ) / (res.count : ℚ)) = s := congrArg Prod.snd heq
      subst hck
      refine ⟨n, hp, hsv.symm, ?_⟩
      simpa using hlt
    · rintro ⟨n, hmem, hs, hlt⟩
      apply List.mem_filter.mpr
      refine ⟨List.mem_map.mpr ⟨(c, n), hmem, ?_⟩, by simpa using hlt⟩
      rw [hs]
  · have hres := parse_csv_ok_foldl vname titles body res h
    rw [hres, foldl_accum_share_city,
      show initState.share_city = ([] : List (String × ℕ)) from rfl]
    exact keys_foldl_cnt_nodup_all (fun r => r.area) _

/-- Witness for C3 at the six-city example. -/
theorem claim_c3_witness :
    (sixCityState.share_city.map Prod.fst).Nodup :=
  (claim_c3 ("x") hdr6 sixBody sixCityState ("A") (1667 / 10000) parse_six_eval
    (by decide)).2

/-- C4: both final city maps hold at most 10 entries, are the 10-prefix of
the stable descending sort by value of their pre-sort lists (so ties keep
the original first-seen insertion order: sorting preserves each
equal-value group exactly as in the pre-sort list), are pairwise
descending, and every city in `salary_city` also passed the share
filter. -/
theorem claim_c4 (st : PState) (b : Bundle) (h : finalize st = .ok b) :
    b.salary_city.length ≤ 10 ∧ b.share_city.length ≤ 10 ∧
    b.salary_city = (sortValDesc (salaryCityPre st)).take 10 ∧
    b.share_city = (sortValDesc (shareKept st.share_city st.count)).take 10 ∧
    List.Pairwise (fun p q => q.2 ≤ p.2) b.salary_city ∧
    List.Pairwise (fun p q => q.2 ≤ p.2) b.share_city ∧
    (∀ v : ℤ, (sortValDesc (salaryCityPre st)).filter (fun p => decide (p.2 = v))
      = (salaryCityPre st).filter (fun p => decide (p.2 = v))) ∧
    (∀ v : ℚ, (sortValDesc (shareKept st.share_city st.count)).filter
        (fun p => decide (p.2 = v))
      = (shareKept st.share_city st.count).filter (fun p => decide (p.2 = v))) ∧
    (∀ p ∈ b.salary_city, ∃ s : ℚ, (p.1, s) ∈ shareKept st.share_city st.count) := by
  rw [finalize] at h
  by_cases h0 : st.count = 0 ∧ st.share_city ≠ []
  · rw [if_pos h0] at h
    exact absurd h (by simp)
  · rw [if_neg h0] at h
    simp only [Except.ok.injEq] at h
    subst h
    refine ⟨List.length_take_le _ _, List.length_take_le _ _, rfl, rfl, ?_, ?_, ?_, ?_, ?_⟩
    · exact (sortValDesc_pairwise _).sublist (List.take_sublist _ _)
    · exact (sortValDesc_pairwise _).sublist (List.take_sublist _ _)
    · exact fun v => sortValDesc_stable _ v
    · exact fun v => sortValDesc_stable _ v
    · intro p hp
      have hp2 : p ∈ sortValDesc (salaryCityPre st) := List.take_subset _ _ hp
      have hp3 : p ∈ salaryCityPre st := (sortValDesc_perm _).mem_iff.mp hp2
      rw [salaryCityPre] at hp3
      rcases List.mem_filter.mp hp3 with ⟨hmem, hany⟩
      rcases List.any_eq_true.mp hany with ⟨q, hq, hq1⟩
      refine ⟨q.2, ?_⟩
      have hq2 : q.1 = p.1 := by simpa using hq1
      rw [← hq2]
      exact hq

theorem round4_one : round4 (1 : ℚ) = 1 := by
  rw [round4, roundHE]
  norm_num

theorem listAvg_single15 : listAvg [15] = 15 := by
  rw [listAvg, pyTrunc]
  norm_num

theorem finalize_small_eval : finalize smallState = .ok smallBundle := by
  rw [finalize, if_neg (by simp [smallState])]
  have h1 : shareKept smallState.share_city smallState.count = [("A", 1)] := by
    rw [shareKept, shareRounded]
    simp [smallState, round4_one]
    norm_num
  have h2 : salaryCityPre smallState = [("A", 15)] := by
    rw [salaryCityPre, h1]
    simp [smallState, get_salary_avg, listAvg_single15]
  rw [h1, h2]
  rfl

/-- Witness for C4 at a one-record state. -/
theorem claim_c4_witness :
    smallBundle.salary_city.length ≤ 10 ∧ smallBundle.share_city.length ≤ 10 :=
  ⟨(claim_c4 smallState smallBundle finalize_small_eval).1,
   (claim_c4 smallState smallBundle finalize_small_eval).2.1⟩

theorem round4_sixth : round4 ((1 : ℚ) / 6) = 1667 / 10000 := by
  rw [round4, roundHE]
  norm_num

/-- Counterexample to C6: six cities with one record each round every
share of 1/6 up to 0.1667, so the rounded shares sum to 1.0002 > 1. -/
theorem claim_c6_counterexample :
    parse_csv ("x") sixCityRows = .ok sixCityState ∧
    ¬(((shareRounded sixCityState.share_city sixCityState.count).map
        (fun p => p.2)).sum ≤ 1) := by
  refine ⟨parse_six_eval, ?_⟩
  have h1 : ((1 : ℕ) : ℚ) / ((6 : ℕ) : ℚ) = (1 : ℚ) / 6 := by norm_num
  rw [shareRounded]
  simp only [sixCityState, List.map_cons, List.map_nil, List.sum_cons, List.sum_nil, h1,
    round4_sixth]
  norm_num

/-- C6 (amended): the rounded shares over all cities sum to at most
`1 + 0.00005 * (number of cities)` — rounding can push each share up by
at most 1/20000, and the raw shares sum to exactly 1 — and every value
retained by the filter is strictly greater than 0.01. -/
theorem claim_c6 (vname : String) (titles : List String) (body : List (List String))
    (res : PState) (h : parse_csv vname (titles :: body) = .ok res)
    (hc : res.count ≠ 0) :
    ((shareRounded res.share_city res.count).map (fun p => p.2)).sum
      ≤ 1 + ((res.share_city.length : ℕ) : ℚ) / 20000 ∧
    (∀ p ∈ shareKept res.share_city res.count, 1 / 100 < p.2) := by
  constructor
  · have hb := sum_shareRounded_le res.share_city res.count
    rw [parse_share_sum vname titles body res h] at hb
    have hd : ((res.count : ℕ) : ℚ) / ((res.count : ℕ) : ℚ) = 1 :=
      div_self (by exact_mod_cast hc)
    rw [hd] at hb
    exact hb
  · intro p hp
    rw [shareKept] at hp
    have h2 := List.of_mem_filter hp
    simpa using h2

/-- Witness for C6 at the six-city example. -/
theorem claim_c6_witness :
    ((shareRounded sixCityState.share_city sixCityState.count).map (fun p => p.2)).sum
      ≤ 1 + ((sixCityState.share_city.length : ℕ) : ℚ) / 20000 :=
  (claim_c6 ("x") hdr6 sixBody sixCityState parse_six_eval (by decide)).1
